import Mathlib

/-!
Verification of the STC decoder (`src/stc/loading.py`).

Python strings are embedded as `List Char` (all inputs of interest are
ASCII).  Python's exception behaviour is embedded as an `Except PyErr`
monad: `PyErr.stcParse` corresponds to the repository's `STCParseError`
class while the other constructors correspond to Python built-in
exceptions that the code can raise (`NotImplementedError`, `NameError`,
`KeyError`, `IndexError`, `ValueError`, `TypeError`).
-/

/-- The backtick character (code point 96). -/
def btChar : Char := Char.ofNat 96

/-- ASCII fragment of the whitespace set stripped by Python's
`str.strip()` / `str.rstrip()` / `str.lstrip()` with no argument. -/
def isPySpace (c : Char) : Bool :=
  c = ' ' || c = '\t' || c = '\n' || c = '\r' || c = '\x0b' || c = '\x0c'

/-- Python `str.lstrip()` (ASCII whitespace). -/
def pyLstrip (s : List Char) : List Char :=
  s.dropWhile isPySpace

/-- Python `str.rstrip()` (ASCII whitespace). -/
def pyRstrip (s : List Char) : List Char :=
  match s with
  | [] => []
  | c :: rest =>
    match pyRstrip rest with
    | [] => if isPySpace c then [] else [c]
    | r => c :: r

/-- Python `str.strip()` (ASCII whitespace). -/
def pyStrip (s : List Char) : List Char :=
  pyRstrip (pyLstrip s)

/-- Python `str.split(sep)` for a one-character separator `sep`
(as in `key.split(".")` and `stc_str.split("\n")`). -/
def splitOnC (sep : Char) : List Char → List (List Char)
  | [] => [[]]
  | c :: rest =>
    let r := splitOnC sep rest
    if c = sep then [] :: r
    else
      match r with
      | [] => [[c]]
      | s :: ss => (c :: s) :: ss

/-- Model of `stc_str.split("\n")`. -/
def splitLines (s : List Char) : List (List Char) :=
  splitOnC '\n' s

/-- Join with `sep`: inverse of `splitOnC` on a one-character separator. -/
def joinSep (sep : Char) : List (List Char) → List Char
  | [] => []
  | [l] => l
  | l :: ls => l ++ sep :: joinSep sep ls

/-- Python `line.split(sep, 1)` fused with the guard `sep in line`:
`none` exactly when the separator does not occur in the line. -/
def splitOnce (sep : Char) : List Char → Option (List Char × List Char)
  | [] => none
  | c :: rest =>
    if c = sep then some ([], rest)
    else (splitOnce sep rest).map (fun p => (c :: p.1, p.2))

/-- Python `str.isidentifier()` restricted to ASCII: nonempty, first
character a letter or underscore, rest letters, digits or underscores.
(`$` is not an identifier character in Python.) -/
def pyIsIdentifier (s : List Char) : Bool :=
  match s with
  | [] => false
  | c :: rest => (c.isAlpha || c = '_') && rest.all (fun d => d.isAlphanum || d = '_')

/-- Python `str.isnumeric()` restricted to ASCII: nonempty and all
decimal digits. -/
def pyIsNumeric (s : List Char) : Bool :=
  !s.isEmpty && s.all Char.isDigit

/-- Numeric value of a list of decimal digits. -/
def digitsVal (s : List Char) : Nat :=
  s.foldl (fun a c => a * 10 + (c.toNat - '0'.toNat)) 0

/-- Validity of the tail of a digit group with PEP-515 underscores:
having already read one digit, underscores must be single and followed
by a digit. -/
def intDigitsOk : List Char → Bool
  | [] => true
  | '_' :: [] => false
  | '_' :: c :: rest => c.isDigit && intDigitsOk (c :: rest)
  | c :: rest => c.isDigit && intDigitsOk rest

/-- A full digit group with underscores: a leading digit, then
`intDigitsOk`. -/
def digitGroupOk : List Char → Bool
  | [] => false
  | c :: rest => c.isDigit && intDigitsOk rest

/-- Strip an optional leading sign, returning (is-negative, rest):
shared by Python's `int()` and `float()` constructors. -/
def stripSign (t : List Char) : Bool × List Char :=
  match t with
  | '+' :: body => (false, body)
  | '-' :: body => (true, body)
  | _ => (false, t)

/-- Python `int(s)` on a (stripped, signed) body of decimal digits with
PEP-515 underscores. -/
def intBody (body : List Char) : Option Nat :=
  if digitGroupOk body then some (digitsVal (body.filter (fun c => c ≠ '_'))) else none

/-- Python `int(s)` for decimal string input: whitespace-stripped,
optionally signed digits with underscores between digits. -/
def pyParseInt (cs : List Char) : Option Int :=
  let t := pyStrip cs
  let sb := stripSign t
  match intBody sb.2 with
  | none => none
  | some n => some (if sb.1 then -(n : Int) else (n : Int))

/-- Value of a finite or special Python float.  A finite decimal literal
is kept exactly as mantissa × 10 ^ exponent (no IEEE-754 rounding: no
claim below compares two distinct spellings of one float). -/
inductive PyFloat where
  | finite (mantissa : Int) (exp10 : Int)
  | posInf
  | negInf
  | nanv
  deriving DecidableEq, Repr

/-- ASCII lower-casing used by Python `float()` for `inf`/`nan`. -/
def lowerAscii (s : List Char) : List Char :=
  s.map Char.toLower

/-- Decimal part of Python `float(s)` after the sign: grammar
`[digits][.digits][ (e|E) [sign] digits ]` with at least one mantissa
digit, underscores between digits in each group. -/
def floatBody (neg : Bool) (b : List Char) : Option PyFloat :=
  let isDU := fun c => c.isDigit || c = '_'
  let ip := b.takeWhile isDU
  let rest1 := b.dropWhile isDU
  let ipOk := ip = [] || digitGroupOk ip
  let fracState : Option (List Char) × List Char :=
    match rest1 with
    | '.' :: r =>
      (some (r.takeWhile isDU), r.dropWhile isDU)
    | _ => (none, rest1)
  let fp := fracState.1
  let rest2 := fracState.2
  let fpOk :=
    match fp with
    | none => true
    | some f => f = [] || digitGroupOk f
  let fd := (fp.getD []).filter (fun c => c ≠ '_')
  let idr := ip.filter (fun c => c ≠ '_')
  let mantOk := ipOk && fpOk && (idr ≠ [] || fd ≠ [])
  let mant : Int := (digitsVal (idr ++ fd) : Int)
  let mkVal := fun (e : Int) =>
    PyFloat.finite (if neg then -mant else mant) (e - (fd.length : Int))
  match rest2 with
  | [] => if mantOk then some (mkVal 0) else none
  | e :: r =>
    if e = 'e' || e = 'E' then
      let se := stripSign r
      if mantOk && digitGroupOk se.2 then
        let ev : Int := (digitsVal (se.2.filter (fun c => c ≠ '_')) : Int)
        some (mkVal (if se.1 then -ev else ev))
      else none
    else none

/-- Python `float(s)` for string input: strip, optional sign, then
case-insensitive `inf`/`infinity`/`nan` or a decimal literal. -/
def pyParseFloat (cs : List Char) : Option PyFloat :=
  let t := pyStrip cs
  let sb := stripSign t
  let low := lowerAscii sb.2
  if low = ('i' :: 'n' :: 'f' :: []) || low = ('i' :: 'n' :: 'f' :: 'i' :: 'n' :: 'i' :: 't' :: 'y' :: []) then
    some (if sb.1 then PyFloat.negInf else PyFloat.posInf)
  else if low = ('n' :: 'a' :: 'n' :: []) then
    some PyFloat.nanv
  else
    floatBody sb.1 sb.2

/-- Shorthand for string literals as `List Char`. -/
def toL (s : String) : List Char :=
  s.toList

/-- Which `raise` site of the source produced an `STCParseError`; each
constructor corresponds to one distinct message format string in
`loading.py`. -/
inductive MsgKind where
  /-- Message "Invalid key: {key}. Key must be a valid identifier." (line 36) -/
  | invalidKeyIdent
  /-- Message "Invalid key: {key}. List index must be $numeric." (line 39) -/
  | invalidKeyIndex
  /-- Message "Negative list index in key: {key}." (line 41) -/
  | negIndex
  /-- Message "Invalid value: {value}. Value must be: ..." (line 70) -/
  | invalidValue
  /-- Message "Line {n} missing colon. Line content: ..." (line 185) -/
  | missingColon
  /-- Message "Empty string block should be formated as ..." (line 201) -/
  | emptyStringBlock
  /-- Message "Unclosed string block starting at line {n}." (line 211) -/
  | unclosedStringBlock
  /-- Message "Key {p} is set both a value and at least one list item / dict
  attribute." (line 100, at an inner path position) -/
  | conflictMid
  /-- Message "Key {p} is set both a value directly and at least one list item
  / dict attribute." (line 107, at the final path segment) -/
  | conflictLast
  /-- Message "Key {p} is set at least two values {old} | {new}." (line 109) -/
  | duplicateLeaf
  /-- Message "{p} is set both as a list and a dict." (lines 129 and 145) -/
  | mixedListDict
  /-- Message "{p} is set as a list, but not all indices are present." (line 132) -/
  | listGapDup
  deriving DecidableEq, Repr

/-- Exceptions observable from `loads`.  Modelled from the spec: the
repository's `.exceptions` module (defining `STCParseError`) is not
under `src/`; per the spec all parse failures are a single
`STCParseError` family carrying a message and, where a line is
implicated, a 1-based line number, and it is distinct from Python's
built-in exceptions, which the remaining constructors name. -/
inductive PyErr where
  /-- An `STCParseError` raised with the given message kind and optional
  1-based line number. -/
  | stcParse (kind : MsgKind) (ln : Option Nat)
  /-- Python `NotImplementedError` ("Rust implementation is not
  available."). -/
  | notImplementedError
  /-- Python `NameError`/`UnboundLocalError` (reading an unbound local). -/
  | nameError
  /-- Python `KeyError` (missing dictionary key). -/
  | keyError
  /-- Python `IndexError` (sequence index out of range). -/
  | indexError
  /-- Python `ValueError` (e.g. `int()` on a non-numeric string). -/
  | valueError
  /-- Python `TypeError`. -/
  | typeError
  deriving DecidableEq, Repr

/-- A finished (non-string-block) value produced by `parse_value`:
booleans, the `EmptyObject` markers for `[]` / `{}`, ints and floats,
plus strings that the state machine assembles from string blocks. -/
inductive Val where
  | vBool (b : Bool)
  | vInt (n : Int)
  | vFloat (f : PyFloat)
  | vStr (s : List Char)
  | emptyList
  | emptyDict
  deriving DecidableEq, Repr

/-- Result of `parse_value`: the Python function returns a pair
`(value, is_string)`; `is_string = True` carries the backtick count. -/
inductive PV where
  | val (v : Val)
  | strStart (btCount : Nat)
  deriving DecidableEq, Repr

/-- Validation loop of `parse_key` over the dot-separated pieces.
Mirrors lines 34-42 of `loading.py`: each piece must pass
`str.isidentifier()`; the subsequent `$`-branch (lines 37-41) is kept
although no string passing `isidentifier` can start with `$`. -/
def checkPieces : List (List Char) → Option Nat → Except PyErr Unit
  | [], _ => .ok ()
  | p :: rest, ln =>
    if ¬ pyIsIdentifier p then .error (.stcParse .invalidKeyIdent ln)
    else
      match p with
      | '$' :: tail =>
        if ¬ pyIsNumeric tail then .error (.stcParse .invalidKeyIndex ln)
        else if (digitsVal tail : Int) < 0 then .error (.stcParse .negIndex ln)
        else checkPieces rest ln
      | _ => checkPieces rest ln

/-- Model of `parse_key` (lines 31-43): split the key on `.`, validate every
piece, and return the list of pieces as the path. -/
def parse_key (key : List Char) (ln : Option Nat) : Except PyErr (List (List Char)) := do
  let pieces := splitOnC '.' key
  checkPieces pieces ln
  pure pieces

/-- Model of the expression at line 81 (length of the value minus the length
of the value with leading backticks stripped): length of the
leading backtick run. -/
def btRun (s : List Char) : Nat :=
  s.length - (s.dropWhile (fun c => c = btChar)).length

/-- Model of `parse_value` (lines 46-82): exact literals, then `int()`, then
`float()`, then the string-block-start rule for values beginning with
three backticks; anything else raises the invalid-value error. -/
def parse_value (value : List Char) (ln : Option Nat) : Except PyErr PV :=
  if value = toL ("`true`") then .ok (.val (.vBool true))
  else if value = toL ("`false`") then .ok (.val (.vBool false))
  else if value = toL ("[]") then .ok (.val .emptyList)
  else if value = toL ("{}") then .ok (.val .emptyDict)
  else
    match pyParseInt value with
    | some n => .ok (.val (.vInt n))
    | none =>
      match pyParseFloat value with
      | some f => .ok (.val (.vFloat f))
      | none =>
        if ¬ (toL ("```")).isPrefixOf value then .error (.stcParse .invalidValue ln)
        else .ok (.strStart (btRun value))

/-- Intermediate tree node: a Python value (leaf) or a nested `dict`
(insertion-ordered, represented as an association list). -/
inductive Node where
  | leaf (v : Val)
  | dict (entries : List (List Char × Node))
  deriving Repr

/-- The intermediate `parsed` dictionary. -/
abbrev PDict := List (List Char × Node)

/-- Python `d[k]` / `k in d` on an insertion-ordered dict. -/
def dlookup (d : PDict) (k : List Char) : Option Node :=
  match d with
  | [] => none
  | (k', v) :: rest => if k' = k then some v else dlookup rest k

/-- Python `d[k] = v`: replace in place if present, else append. -/
def dset (d : PDict) (k : List Char) (v : Node) : PDict :=
  match d with
  | [] => [(k, v)]
  | (k', v') :: rest => if k' = k then (k, v) :: rest else (k', v') :: dset rest k v

/-- Walk of `fill_in_value` (lines 95-111).  `prev` tracks the Python
loop variable `piece` of the `for i, piece in enumerate(path[:-1])`
loop, which the duplicate-value message at line 109 reads
(`current[piece]`): for a single-segment path it is unbound
(`NameError`), and when bound it indexes the *current* dict with the
previous segment, raising `KeyError` if absent. -/
def fillGo : List (List Char) → Option (List Char) → Val → PDict → Except PyErr PDict
  | [], _, _, _ => .error .indexError
  | [last], prev, v, cur =>
    match dlookup cur last with
    | some (.dict _) => .error (.stcParse .conflictLast none)
    | some (.leaf _) =>
      match prev with
      | none => .error .nameError
      | some p =>
        match dlookup cur p with
        | none => .error .keyError
        | some _ => .error (.stcParse .duplicateLeaf none)
    | none => .ok (dset cur last (.leaf v))
  | piece :: next :: rest, _, v, cur =>
    match dlookup cur piece with
    | some (.leaf _) => .error (.stcParse .conflictMid none)
    | some (.dict e) =>
      match fillGo (next :: rest) (some piece) v e with
      | .ok e' => .ok (dset cur piece (.dict e'))
      | .error err => .error err
    | none =>
      match fillGo (next :: rest) (some piece) v [] with
      | .ok e' => .ok (dset cur piece (.dict e'))
      | .error err => .error err

/-- Model of `fill_in_value(path, value, parsed)` (lines 85-111), returning the
updated dictionary instead of mutating it. -/
def fill_in_value (path : List (List Char)) (value : Val) (parsed : PDict) : Except PyErr PDict :=
  fillGo path none value parsed

/-- A finalized Python value as returned by `loads`: `jNull` is Python
`None` (it can appear in a finalized list when an index slot was never
assigned). -/
inductive JVal where
  | jNull
  | jBool (b : Bool)
  | jInt (n : Int)
  | jFloat (f : PyFloat)
  | jStr (s : List Char)
  | jList (xs : List JVal)
  | jDict (entries : List (List Char × JVal))
  deriving Repr

/-- Finalization of a leaf: `EmptyObject.EMPTY_LIST.value` is `[]`,
`EmptyObject.EMPTY_DICT.value` is `{}`, every other leaf passes through
unchanged (lines 138-141 and 149-150). -/
def leafToJ : Val → JVal
  | .vBool b => .jBool b
  | .vInt n => .jInt n
  | .vFloat f => .jFloat f
  | .vStr s => .jStr s
  | .emptyList => .jList []
  | .emptyDict => .jDict []

/-- Generator `any(p(key[0]) for key in keys)` with Python's indexing:
an empty key raises `IndexError`; evaluation short-circuits at the
first key whose head satisfies `p` (lines 128 and 144). -/
def anyHeadP (p : Char → Bool) : PDict → Except PyErr Bool
  | [] => .ok false
  | (k, _) :: rest =>
    match k with
    | [] => .error .indexError
    | c :: _ => if p c then .ok true else anyHeadP p rest

/-- Indices `[int(key[1:]) for key in keys]` (line 130): Python `int()`
raises `ValueError` on a non-numeric remainder. -/
def listIndices : PDict → Except PyErr (List Int)
  | [] => .ok []
  | (k, _) :: rest => do
    match pyParseInt (k.drop 1) with
    | none => .error .valueError
    | some n =>
      let tail ← listIndices rest
      .ok (n :: tail)

/-- Python `min` of a list, only ever applied to nonempty lists (as in
line 131). -/
def listMin : List Int → Int
  | [] => 0
  | i :: rest => rest.foldl min i

/-- Python `max` of a list, only ever applied to nonempty lists. -/
def listMax : List Int → Int
  | [] => 0
  | i :: rest => rest.foldl max i

/-- Prefix used in finalization error messages:
`f"{prefix}.{key}" if prefix else key` (lines 137 and 148). -/
def joinPre (pre k : List Char) : List Char :=
  if pre = [] then k else pre ++ '.' :: k

mutual

/-- Finalization of one node.  A leaf passes through `leafToJ`; for a
dict node this is the body of `finalize_dict` (lines 114-151): an empty
dict is returned unchanged; if the first key starts with `$` the node
becomes a list (requiring every key to start with `$`, and
`min(indices) = 0`, `max(indices) = n - 1`), slots being assigned in
key order into a `None`-initialized list; otherwise the node stays a
dict (requiring no key to start with `$`), each child finalized in
insertion order.  All shape checks run before any recursion into
children, as in the source.  Python iterates `keys` and indexes
`d[key]`; as dict keys are unique this equals iterating the entries in
order. -/
def finNode : Node → List Char → Except PyErr JVal
  | .leaf w, _ => .ok (leafToJ w)
  | .dict d, pre =>
    match d.head? with
    | none => .ok (.jDict [])
    | some (k0, _) =>
      match k0 with
      | [] => .error .indexError
      | c0 :: _ =>
        if c0 = '$' then do
          if (← anyHeadP (fun c => c ≠ '$') d) then
            .error (.stcParse .mixedListDict none)
          else
            let idxs ← listIndices d
            if listMin idxs ≠ 0 ∨ listMax idxs ≠ (idxs.length : Int) - 1 then
              .error (.stcParse .listGapDup none)
            else
              let children ← finChildren d pre
              let slots := List.replicate d.length (none : Option JVal)
              let filled := (idxs.zip (children.map Prod.snd)).foldl
                (fun acc iv => acc.set iv.1.toNat (some iv.2)) slots
              .ok (.jList (filled.map (fun o => o.getD .jNull)))
        else do
          if (← anyHeadP (fun c => c = '$') d) then
            .error (.stcParse .mixedListDict none)
          else
            let children ← finChildren d pre
            .ok (.jDict children)

/-- Per-entry finalization: a dict child recurses with the extended
prefix, an `EmptyObject` leaf becomes its `.value`, other leaves pass
through (lines 136-141 / 146-150). -/
def finChildren : PDict → List Char → Except PyErr (List (List Char × JVal))
  | [], _ => .ok []
  | (k, n) :: rest, pre => do
    let v ← finNode n (joinPre pre k)
    let tail ← finChildren rest pre
    .ok ((k, v) :: tail)

end

/-- Model of `finalize_dict(d, prefix)` (lines 114-151), the top-level
entry on the intermediate dictionary. -/
def finalize_dict (d : PDict) (pre : List Char) : Except PyErr JVal :=
  finNode (.dict d) pre

/-- State threaded through the line loop of `loads` (lines 175-179):
`in_a_string`, `string_value`, `bt_count` (initially `-1`),
`string_key_path` (initially `None`) and the accumulating `parsed`
dictionary. -/
structure LoadState where
  inString : Bool
  stringValue : List Char
  bt : Int
  keyPath : Option (List (List Char))
  parsed : PDict

/-- Initial loop state. -/
def initState : LoadState :=
  { inString := false, stringValue := [], bt := -1, keyPath := none, parsed := [] }

/-- Model of the line `"`" * bt_count` for the close-fence comparison. -/
def fenceOf (bt : Int) : List Char :=
  List.replicate bt.toNat btChar

/-- Main loop of `loads` (lines 180-212) over the split lines, with `i`
the 0-based index of the current line.  Inside a string block a line
whose right-strip equals the fence closes the block (rejecting an empty
accumulator, else stripping the final newline and handing the string to
`fill_in_value`); any other line is accumulated verbatim plus a newline.
Outside, blank lines are skipped, a line without a colon fails, and
otherwise the key and value are parsed and dispatched.  After the last
line, a still-open string block fails, else `finalize_dict` runs. -/
def runLines : List (List Char) → Nat → LoadState → Except PyErr JVal
  | [], i, st =>
    if st.inString then .error (.stcParse .unclosedStringBlock (some i))
    else finalize_dict st.parsed []
  | line :: rest, i, st =>
    if st.inString then
      if pyRstrip line = fenceOf st.bt then
        if st.stringValue.length = 0 then .error (.stcParse .emptyStringBlock (some (i + 1)))
        else
          match st.keyPath with
          | none => .error .typeError
          | some p =>
            match fill_in_value p (.vStr st.stringValue.dropLast) st.parsed with
            | .error e => .error e
            | .ok d =>
              runLines rest (i + 1)
                { inString := false, stringValue := [], bt := -1, keyPath := none, parsed := d }
      else
        runLines rest (i + 1) { st with stringValue := st.stringValue ++ line ++ ['\n'] }
    else
      if pyStrip line = [] then runLines rest (i + 1) st
      else
        match splitOnce ':' line with
        | none => .error (.stcParse .missingColon (some (i + 1)))
        | some (keyRaw, valueRaw) =>
          match parse_key (pyStrip keyRaw) (some (i + 1)) with
          | .error e => .error e
          | .ok path =>
            match parse_value (pyStrip valueRaw) (some (i + 1)) with
            | .error e => .error e
            | .ok (.strStart n) =>
              runLines rest (i + 1)
                { inString := true, stringValue := [], bt := (n : Int),
                  keyPath := some path, parsed := st.parsed }
            | .ok (.val v) =>
              match fill_in_value path v st.parsed with
              | .error e => .error e
              | .ok d => runLines rest (i + 1) { st with parsed := d }

/-- Implementation selector of `loads`; the Python default is `'rust'`. -/
inductive Impl where
  | rust
  | python
  deriving DecidableEq, Repr

/-- Model of `loads(stc_str, impl)` (lines 154-212).  `rustLoads` models
the module-level `rust_loads` binding: `none` when the `stc_rust` import
failed, otherwise the opaque alternate engine.  With `impl = 'rust'` the
core never runs: either the alternate engine is invoked or
`NotImplementedError` is raised.  Otherwise a document that strips to
`"{}"` is the empty dict, and else the line loop runs over
`stc_str.split("\n")`. -/
def loads (rustLoads : Option (List Char → Except PyErr JVal)) (impl : Impl)
    (stc_str : List Char) : Except PyErr JVal :=
  match impl with
  | .rust =>
    match rustLoads with
    | some f => f stc_str
    | none => .error .notImplementedError
  | .python =>
    if pyStrip stc_str = toL ("{}") then .ok (.jDict [])
    else runLines (splitLines stc_str) 0 initState

/-- Model of the default-argument call `loads(stc_str)`: the source
header `impl: Literal['rust', 'python'] = 'rust'` makes the alternate
engine the default. -/
def loadsDefault (rustLoads : Option (List Char → Except PyErr JVal))
    (stc_str : List Char) : Except PyErr JVal :=
  loads rustLoads .rust stc_str

theorem splitOnC_ne_nil (sep : Char) (s : List Char) : splitOnC sep s ≠ [] := by
  cases s with
  | nil => simp [splitOnC]
  | cons c rest =>
    simp only [splitOnC]
    split
    · simp
    · cases h : splitOnC sep rest <;> simp

theorem splitOnC_append (sep : Char) (x y : List Char) :
    splitOnC sep (x ++ sep :: y) = splitOnC sep x ++ splitOnC sep y := by
  induction x with
  | nil => simp [splitOnC]
  | cons c rest ih =>
    simp only [List.cons_append, splitOnC]
    by_cases h : c = sep
    · simp [h, ih]
    · simp only [if_neg h]
      cases hr : splitOnC sep rest with
      | nil => exact absurd hr (splitOnC_ne_nil sep rest)
      | cons s ss => simp only [List.append_eq]; rw [ih, hr]; simp

theorem splitOnC_no_sep (sep : Char) (s : List Char) (h : ∀ c ∈ s, c ≠ sep) :
    splitOnC sep s = [s] := by
  induction s with
  | nil => simp [splitOnC]
  | cons c rest ih =>
    simp only [splitOnC]
    rw [if_neg (h c (List.mem_cons_self c rest))]
    rw [ih (fun d hd => h d (List.mem_cons_of_mem c hd))]

theorem joinSep_splitOnC (sep : Char) (s : List Char) :
    joinSep sep (splitOnC sep s) = s := by
  induction s with
  | nil => simp [splitOnC, joinSep]
  | cons c rest ih =>
    simp only [splitOnC]
    by_cases h : c = sep
    · subst h
      simp only [if_pos rfl]
      cases hr : splitOnC c rest with
      | nil => exact absurd hr (splitOnC_ne_nil c rest)
      | cons s ss =>
        rw [hr] at ih
        simpa [joinSep] using ih
    · simp only [if_neg h]
      cases hr : splitOnC sep rest with
      | nil => exact absurd hr (splitOnC_ne_nil sep rest)
      | cons s ss =>
        rw [hr] at ih
        cases ss with
        | nil => simpa [joinSep] using congrArg (c :: ·) ih
        | cons t ts => simpa [joinSep] using congrArg (c :: ·) ih

theorem pyRstrip_cons_head (c : Char) (xs : List Char) (h : isPySpace c = false) :
    ∃ ys, pyRstrip (c :: xs) = c :: ys := by
  simp only [pyRstrip]
  cases hr : pyRstrip xs with
  | nil => exact ⟨[], by simp [h]⟩
  | cons r rs => exact ⟨r :: rs, rfl⟩

theorem pyRstrip_no_ws (l : List Char) (h : ∀ c ∈ l, isPySpace c = false) :
    pyRstrip l = l := by
  induction l with
  | nil => rfl
  | cons c rest ih =>
    simp only [pyRstrip]
    rw [ih (fun d hd => h d (List.mem_cons_of_mem c hd))]
    cases hr : rest with
    | nil => simp [h c (List.mem_cons_self c rest)]
    | cons r rs => rfl

theorem dropWhile_no_sat (p : Char → Bool) (l : List Char)
    (h : ∀ c ∈ l, p c = false) : l.dropWhile p = l := by
  cases l with
  | nil => rfl
  | cons c rest => simp [List.dropWhile_cons, h c (List.mem_cons_self c rest)]

theorem pyStrip_cons_head (c : Char) (xs : List Char) (h : isPySpace c = false) :
    ∃ ys, pyStrip (c :: xs) = c :: ys := by
  unfold pyStrip pyLstrip
  rw [List.dropWhile_cons, h]
  simp only [Bool.false_eq_true, if_false]
  exact pyRstrip_cons_head c xs h

theorem pyStrip_no_ws (l : List Char) (h : ∀ c ∈ l, isPySpace c = false) :
    pyStrip l = l := by
  unfold pyStrip pyLstrip
  rw [dropWhile_no_sat _ _ h, pyRstrip_no_ws _ h]

theorem pyParseInt_bt (xs : List Char) : pyParseInt (btChar :: xs) = none := by
  obtain ⟨ys, h⟩ := pyStrip_cons_head btChar xs (by decide)
  unfold pyParseInt
  rw [h]
  rfl

theorem pyParseFloat_bt (xs : List Char) : pyParseFloat (btChar :: xs) = none := by
  obtain ⟨ys, h⟩ := pyStrip_cons_head btChar xs (by decide)
  unfold pyParseFloat
  rw [h]
  rfl

theorem replicate_bt_ne (f : Nat) (l : List Char) (c : Char) (hc : c ∈ l)
    (hne : c ≠ btChar) : List.replicate f btChar ≠ l := by
  intro h
  exact hne (List.eq_of_mem_replicate (h ▸ hc))

theorem btRun_replicate (f : Nat) : btRun (List.replicate f btChar) = f := by
  unfold btRun
  have h : (List.replicate f btChar).dropWhile (fun c => c = btChar) = [] := by
    induction f with
    | zero => rfl
    | succ n ih => simp [List.replicate_succ, List.dropWhile_cons, ih]
  simp [h]

theorem parse_value_fence (f : Nat) (hf : 3 ≤ f) (ln : Option Nat) :
    parse_value (List.replicate f btChar) ln = .ok (.strStart f) := by
  obtain ⟨k, rfl⟩ : ∃ k, f = k + 3 := ⟨f - 3, by omega⟩
  unfold parse_value
  rw [if_neg (replicate_bt_ne _ _ 't' (by decide) (by decide))]
  rw [if_neg (replicate_bt_ne _ _ 'f' (by decide) (by decide))]
  rw [if_neg (replicate_bt_ne _ _ '[' (by decide) (by decide))]
  rw [if_neg (replicate_bt_ne _ _ '{' (by decide) (by decide))]
  have hrep : List.replicate (k + 3) btChar
      = btChar :: btChar :: btChar :: List.replicate k btChar := rfl
  rw [hrep, pyParseInt_bt, pyParseFloat_bt]
  have hpre : (toL ("```")).isPrefixOf
      (btChar :: btChar :: btChar :: List.replicate k btChar) = true := by
    simp [toL, List.isPrefixOf]
    rfl
  rw [if_neg (by simp [hpre])]
  rw [← hrep, btRun_replicate]

theorem fenceOf_natCast (f : Nat) : fenceOf (f : Int) = List.replicate f btChar := by
  simp [fenceOf]

theorem runLines_accum (L rest : List (List Char)) (i : Nat) (acc : List Char)
    (b : Int) (p : List (List Char)) (d : PDict)
    (h : ∀ l ∈ L, pyRstrip l ≠ fenceOf b) :
    runLines (L ++ rest) i ⟨true, acc, b, some p, d⟩
      = runLines rest (i + L.length)
          ⟨true, acc ++ (L.map (fun l => l ++ ['\n'])).flatten, b, some p, d⟩ := by
  induction L generalizing i acc with
  | nil => simp
  | cons l L' ih =>
    have hl := h l (List.mem_cons_self l L')
    simp only [List.cons_append, runLines, if_neg hl, if_true, ite_true, List.append_eq]
    rw [ih (i + 1) (acc ++ l ++ ['\n']) (fun x hx => h x (List.mem_cons_of_mem l hx))]
    have e1 : i + 1 + L'.length = i + (l :: L').length := by
      simp only [List.length_cons]; omega
    rw [e1]
    simp [List.append_assoc]

theorem join_map_newline (L : List (List Char)) (h : L ≠ []) :
    (L.map (fun l => l ++ ['\n'])).flatten = joinSep '\n' L ++ ['\n'] := by
  induction L with
  | nil => exact absurd rfl h
  | cons l L' ih =>
    cases L' with
    | nil => simp [joinSep]
    | cons m M =>
      simp only [List.map_cons, List.flatten_cons] at ih ⊢
      rw [ih (by simp)]
      simp [joinSep, List.append_assoc]

theorem pyStrip_cons_ne_nil (c : Char) (xs : List Char) (h : isPySpace c = false) :
    pyStrip (c :: xs) ≠ [] := by
  obtain ⟨ys, hy⟩ := pyStrip_cons_head c xs h
  simp [hy]

theorem pyStrip_cons_ne (c : Char) (xs : List Char) (h : isPySpace c = false)
    (c' : Char) (t : List Char) (hne : c ≠ c') : pyStrip (c :: xs) ≠ c' :: t := by
  obtain ⟨ys, hy⟩ := pyStrip_cons_head c xs h
  rw [hy]
  intro he
  exact hne (List.head_eq_of_cons_eq he)

theorem ne_cons_of_head (x y : Char) (xs ys : List Char) (h : x ≠ y) :
    x :: xs ≠ y :: ys := by
  intro he
  exact h (List.head_eq_of_cons_eq he)

theorem ne_cons_of_second (x1 x2 y1 y2 : Char) (xs ys : List Char) (h : x2 ≠ y2) :
    x1 :: x2 :: xs ≠ y1 :: y2 :: ys := by
  intro he
  exact h (List.head_eq_of_cons_eq (List.tail_eq_of_cons_eq he))

theorem parse_value_bt3 (rest : List Char) (ln : Option Nat) :
    parse_value (btChar :: btChar :: btChar :: rest) ln
      = .ok (.strStart (btRun (btChar :: btChar :: btChar :: rest))) := by
  unfold parse_value
  rw [if_neg (show (btChar :: btChar :: btChar :: rest) ≠ toL ("`true`") from
    ne_cons_of_second _ _ _ _ _ _ (by decide))]
  rw [if_neg (show (btChar :: btChar :: btChar :: rest) ≠ toL ("`false`") from
    ne_cons_of_second _ _ _ _ _ _ (by decide))]
  rw [if_neg (show (btChar :: btChar :: btChar :: rest) ≠ toL ("[]") from
    ne_cons_of_head _ _ _ _ (by decide))]
  rw [if_neg (show (btChar :: btChar :: btChar :: rest) ≠ toL ("{}") from
    ne_cons_of_head _ _ _ _ (by decide))]
  rw [pyParseInt_bt, pyParseFloat_bt]
  have hpre : (toL ("```")).isPrefixOf (btChar :: btChar :: btChar :: rest) = true := by
    simp [toL, List.isPrefixOf, btChar]
  rw [if_neg (by simp [hpre])]

theorem dlookup_dset_self (d : PDict) (k : List Char) (v : Node) :
    dlookup (dset d k v) k = some v := by
  induction d with
  | nil => simp [dset, dlookup]
  | cons e rest ih =>
    obtain ⟨k', v'⟩ := e
    by_cases h : k' = k
    · simp [dset, h, dlookup]
    · simp [dset, h, dlookup, ih]

theorem fillGo_extend_conflict (p : List (List Char)) :
    ∀ (r : List (List Char)) (prev prev' : Option (List Char)) (v w : Val)
      (d d' : PDict), p ≠ [] → r ≠ [] →
      fillGo p prev v d = .ok d' →
      fillGo (p ++ r) prev' w d' = .error (.stcParse .conflictMid none) := by
  induction p with
  | nil => intro r prev prev' v w d d' hp; exact absurd rfl hp
  | cons a p' ih =>
    intro r prev prev' v w d d' _ hr h
    cases p' with
    | nil =>
      cases r with
      | nil => exact absurd rfl hr
      | cons r0 r' =>
        cases hda : dlookup d a with
        | none =>
          simp only [fillGo, hda] at h
          obtain rfl : dset d a (.leaf v) = d' := by
            simpa using h
          simp [fillGo, dlookup_dset_self]
        | some n =>
          cases n with
          | dict e => simp [fillGo, hda] at h
          | leaf lv =>
            simp only [fillGo, hda] at h
            cases prev with
            | none => simp at h
            | some q => cases hq : dlookup d q <;> simp [hq] at h
    | cons p2 ps =>
      cases hda : dlookup d a with
      | none =>
        simp only [fillGo, hda] at h
        cases hrec : fillGo (p2 :: ps) (some a) v [] with
        | error e => rw [hrec] at h; exact absurd h (by simp)
        | ok e' =>
          rw [hrec] at h
          simp only [Except.ok.injEq] at h
          subst h
          have hrecr := ih r (some a) (some a) v w [] e' (by simp) hr hrec
          rw [List.cons_append] at hrecr
          simp only [List.cons_append, fillGo, dlookup_dset_self, List.append_eq]
          rw [hrecr]
      | some n =>
        cases n with
        | leaf lv => simp [fillGo, hda] at h
        | dict e =>
          simp only [fillGo, hda] at h
          cases hrec : fillGo (p2 :: ps) (some a) v e with
          | error er => rw [hrec] at h; exact absurd h (by simp)
          | ok e' =>
            rw [hrec] at h
            simp only [Except.ok.injEq] at h
            subst h
            have hrecr := ih r (some a) (some a) v w e e' (by simp) hr hrec
            rw [List.cons_append] at hrecr
            simp only [List.cons_append, fillGo, dlookup_dset_self, List.append_eq]
            rw [hrecr]

theorem fillGo_shorten_conflict (p : List (List Char)) :
    ∀ (r : List (List Char)) (prev prev' : Option (List Char)) (v w : Val)
      (d d' : PDict), p ≠ [] → r ≠ [] →
      fillGo (p ++ r) prev v d = .ok d' →
      fillGo p prev' w d' = .error (.stcParse .conflictLast none) := by
  induction p with
  | nil => intro r prev prev' v w d d' hp; exact absurd rfl hp
  | cons a p' ih =>
    intro r prev prev' v w d d' _ hr h
    cases p' with
    | nil =>
      cases r with
      | nil => exact absurd rfl hr
      | cons r0 r' =>
        simp only [List.cons_append, List.nil_append] at h
        cases hda : dlookup d a with
        | none =>
          simp only [fillGo, hda] at h
          cases hrec : fillGo (r0 :: r') (some a) v [] with
          | error e => rw [hrec] at h; exact absurd h (by simp)
          | ok e' =>
            rw [hrec] at h
            simp only [Except.ok.injEq] at h
            subst h
            simp [fillGo, dlookup_dset_self]
        | some n =>
          cases n with
          | leaf lv => simp [fillGo, hda] at h
          | dict e =>
            simp only [fillGo, hda] at h
            cases hrec : fillGo (r0 :: r') (some a) v e with
            | error er => rw [hrec] at h; exact absurd h (by simp)
            | ok e' =>
              rw [hrec] at h
              simp only [Except.ok.injEq] at h
              subst h
              simp [fillGo, dlookup_dset_self]
    | cons p2 ps =>
      simp only [List.cons_append] at h
      cases hda : dlookup d a with
      | none =>
        simp only [fillGo, hda] at h
        cases hrec : fillGo (p2 :: (ps ++ r)) (some a) v [] with
        | error e => rw [hrec] at h; exact absurd h (by simp)
        | ok e' =>
          rw [hrec] at h
          simp only [Except.ok.injEq] at h
          subst h
          have hs := ih r (some a) (some a) v w [] e' (by simp) hr
            (by rw [List.cons_append]; exact hrec)
          simp only [fillGo, dlookup_dset_self]
          rw [hs]
      | some n =>
        cases n with
        | leaf lv => simp [fillGo, hda] at h
        | dict e =>
          simp only [fillGo, hda] at h
          cases hrec : fillGo (p2 :: (ps ++ r)) (some a) v e with
          | error er => rw [hrec] at h; exact absurd h (by simp)
          | ok e' =>
            rw [hrec] at h
            simp only [Except.ok.injEq] at h
            subst h
            have hs := ih r (some a) (some a) v w e e' (by simp) hr
              (by rw [List.cons_append]; exact hrec)
            simp only [fillGo, dlookup_dset_self]
            rw [hs]

theorem splitLines_ne_nil (s : List Char) : splitLines s ≠ [] :=
  splitOnC_ne_nil _ _

theorem joinSep_splitLines (s : List Char) : joinSep '\n' (splitLines s) = s :=
  joinSep_splitOnC _ _

/-- C1: the claim states that documents assigning through `$N` index
segments decode to the implied lists in either order, in particular
both `a.$1: 2\na.$0: 1` and `a.$0: 1\na.$1: 2` yield `{"a": [1, 2]}`,
which requires `parse_key` to accept `$`-digit pieces.  The core
instead rejects every `$N` piece: Python's `str.isidentifier()` is
false on `$0` (`$` is not an identifier character), so `parse_key`
raises the invalid-identifier `STCParseError` at line 1 before its `$`
branch (loading.py lines 37-41, unreachable) can run; both documents
fail, contradicting the repository's own list tests. -/
theorem c1_dollar_index_keys_rejected :
    loads none .python (toL ("a.$1: 2\na.$0: 1"))
        = .error (.stcParse .invalidKeyIdent (some 1))
    ∧ loads none .python (toL ("a.$0: 1\na.$1: 2"))
        = .error (.stcParse .invalidKeyIdent (some 1)) :=
  ⟨rfl, rfl⟩

/-- C2 counterexample: with `f = 3` and content `C = "``` "` (three
backticks followed by one space, a single line that does not consist
solely of backticks, so the claim's hypothesis holds), decoding
`"a: ```\n``` \n```"` does not yield `{"a": C}`: the code right-trims
each line before the fence comparison, so the content line closes the
block immediately and the empty-block error is raised at line 2. -/
theorem c2_rstrip_close_counterexample :
    splitLines (toL ("``` ")) = [toL ("``` ")]
    ∧ ((toL ("``` ")).all (fun c => c = btChar)) = false
    ∧ loads none .python (toL ("a: ```\n``` \n```"))
        = .error (.stcParse .emptyStringBlock (some 2))
    ∧ loads none .python (toL ("a: ```\n``` \n```"))
        ≠ .ok (.jDict [(toL ("a"), .jStr (toL ("``` ")))]) := by
  refine ⟨rfl, rfl, rfl, ?_⟩
  rw [show loads none .python (toL ("a: ```\n``` \n```"))
      = .error (.stcParse .emptyStringBlock (some 2)) from rfl]
  simp

/-- C2 amended: for every fence length `f ≥ 3` and every content `C`
none of whose lines RIGHT-TRIMS to a line consisting solely of
backticks of length ≥ `f` (the code compares each line right-trimmed
of trailing whitespace against the closing fence), decoding
`"a: " + f backticks + "\n" + C + "\n" + f backticks` yields exactly
`{"a": C}`, with `C` reproduced character for character and only the
synthetic trailing newline stripped. -/
theorem c2_fence_roundtrip_amended (f : Nat) (C : List Char) (hf : 3 ≤ f)
    (hC : ∀ l ∈ splitLines C,
        ¬((pyRstrip l).all (fun c => c = btChar) ∧ f ≤ (pyRstrip l).length)) :
    loads none .python
        ((toL ("a: ") ++ List.replicate f btChar) ++ '\n' :: (C ++ '\n' :: List.replicate f btChar))
      = .ok (.jDict [(toL ("a"), .jStr C)]) := by
  have hfc : ∀ c ∈ List.replicate f btChar, c = btChar := fun c hc => List.eq_of_mem_replicate hc
  have hnws : ∀ c ∈ List.replicate f btChar, isPySpace c = false := by
    intro c hc; rw [hfc c hc]; decide
  have hfnl : ∀ c ∈ List.replicate f btChar, c ≠ '\n' := by
    intro c hc; rw [hfc c hc]; decide
  have hline0 : ∀ c ∈ toL ("a: ") ++ List.replicate f btChar, c ≠ '\n' := by
    intro c hc
    rcases List.mem_append.mp hc with h1 | h1
    · simp [toL] at h1
      rcases h1 with h | h | h <;> simp [h]
    · exact hfnl c h1
  have hsplit : splitLines
        ((toL ("a: ") ++ List.replicate f btChar) ++ '\n' :: (C ++ '\n' :: List.replicate f btChar))
      = (toL ("a: ") ++ List.replicate f btChar) :: (splitLines C ++ [List.replicate f btChar]) := by
    unfold splitLines
    rw [splitOnC_append, splitOnC_append]
    rw [splitOnC_no_sep _ _ hline0, splitOnC_no_sep _ _ hfnl]
    simp [splitLines]
  have hbr : pyStrip ((toL ("a: ") ++ List.replicate f btChar)
        ++ '\n' :: (C ++ '\n' :: List.replicate f btChar)) ≠ toL ("{}") :=
    pyStrip_cons_ne 'a' _ (by decide) '{' _ (by decide)
  simp only [loads, if_neg hbr]
  rw [hsplit]
  simp only [runLines, initState, Bool.false_eq_true, if_false, Nat.zero_add]
  have hblank : pyStrip (toL ("a: ") ++ List.replicate f btChar) ≠ [] :=
    pyStrip_cons_ne_nil 'a' _ (by decide)
  rw [if_neg hblank]
  have hso : splitOnce ':' (toL ("a: ") ++ List.replicate f btChar)
      = some (toL ("a"), ' ' :: List.replicate f btChar) := rfl
  rw [hso]
  have hpk : parse_key (pyStrip (toL ("a"))) (some 1) = .ok [toL ("a")] := rfl
  have hvs : pyStrip (' ' :: List.replicate f btChar) = List.replicate f btChar := by
    unfold pyStrip pyLstrip
    rw [List.dropWhile_cons]
    simp only [show isPySpace ' ' = true from rfl, if_true]
    rw [dropWhile_no_sat _ _ hnws, pyRstrip_no_ws _ hnws]
  simp only [hpk, hvs, parse_value_fence f hf]
  have hacc : ∀ l ∈ splitLines C, pyRstrip l ≠ fenceOf ((f : Nat) : Int) := by
    intro l hl heq
    apply hC l hl
    constructor
    · rw [heq, fenceOf_natCast]
      simp only [List.all_eq_true, decide_eq_true_eq]
      intro c hc
      exact List.eq_of_mem_replicate hc
    · rw [heq, fenceOf_natCast, List.length_replicate]
  rw [runLines_accum _ _ _ _ _ _ _ hacc]
  simp only [runLines]
  rw [if_pos (show True from trivial)]
  have hclose : pyRstrip (List.replicate f btChar) = fenceOf ((f : Nat) : Int) := by
    rw [pyRstrip_no_ws _ hnws, fenceOf_natCast]
  rw [if_pos hclose]
  have hsv : ([] : List Char) ++ ((splitLines C).map (fun l => l ++ ['\n'])).flatten
      = C ++ ['\n'] := by
    rw [List.nil_append, join_map_newline _ (splitLines_ne_nil C), joinSep_splitLines]
  rw [hsv]
  have hlen : ¬((C ++ ['\n']).length = 0) := by simp
  rw [if_neg hlen]
  have hdl : (C ++ ['\n']).dropLast = C := by simp
  rw [hdl]
  have hfill : fill_in_value [toL ("a")] (.vStr C) [] = .ok [(toL ("a"), .leaf (.vStr C))] := rfl
  rw [hfill]
  rfl

/-- C2 witness: the amended round trip at `f = 3`, `C = "hi"`. -/
theorem c2_fence_roundtrip_amended_witness :
    loads none .python
        ((toL ("a: ") ++ List.replicate 3 btChar)
          ++ '\n' :: (toL ("hi") ++ '\n' :: List.replicate 3 btChar))
      = .ok (.jDict [(toL ("a"), .jStr (toL ("hi")))]) :=
  c2_fence_roundtrip_amended 3 (toL ("hi")) (by decide) (by decide)

/-- C3: the claim states that assigning the same key path twice always
fails with the `DuplicateLeafAssignment` member of the `STCParseError`
family and no other exception type.  Decode does fail, but with Python
built-in exceptions: the duplicate-value message f-string at
loading.py line 109 reads `current[piece]`, where `piece` is the loop
variable of the walk over `path[:-1]` — unbound for the single-segment
path `a` (`NameError`/`UnboundLocalError`), and for `a.b` bound to
`"a"`, a key absent from the inner dict (`KeyError`). -/
theorem c3_duplicate_leaf_raises_builtin :
    loads none .python (toL ("a: 1\na: 2")) = .error .nameError
    ∧ loads none .python (toL ("a.b: 1\na.b: 2")) = .error .keyError :=
  ⟨rfl, rfl⟩

/-- C4: the claim states that finalization of an all-`$`-key container
succeeds iff the multiset of parsed indices is exactly `{0..n-1}`, any
gap or duplicate failing, and a successful list has no unfilled
positions.  The code only checks `min = 0` and `max = n - 1` over the
string-distinct keys, so the aliased spellings `$0`, `$00`, `$2` (index
multiset `{0, 0, 2}`, a duplicate and a gap at 1) pass the check and
finalize to `[2, None, 3]` with an unfilled `None` slot, contradicting
the code's own "not all indices are present" error message. -/
theorem c4_alias_index_gap_accepted :
    listIndices [(toL ("$0"), .leaf (.vInt 1)), (toL ("$00"), .leaf (.vInt 2)),
        (toL ("$2"), .leaf (.vInt 3))] = .ok [0, 0, 2]
    ∧ finalize_dict [(toL ("$0"), .leaf (.vInt 1)), (toL ("$00"), .leaf (.vInt 2)),
        (toL ("$2"), .leaf (.vInt 3))] []
      = .ok (.jList [.jInt 2, .jNull, .jInt 3]) :=
  ⟨rfl, rfl⟩

/-- C5 counterexample: the claim states that `parse_value` does not fail
immediately on the five-character token obtained by wrapping `123` in
single backticks, classifying it as a string-block start so that decode
fails only later for lack of a closing fence.  In fact the token does
not start with three backticks, so `parse_value` raises the
invalid-value `STCParseError` immediately and the decode fails at
line 1 with that error, not with an unclosed-block error. -/
theorem c5_wrapped_number_counterexample :
    parse_value (toL ("`123`")) (some 1) = .error (.stcParse .invalidValue (some 1))
    ∧ loads none .python (toL ("a: `123`")) = .error (.stcParse .invalidValue (some 1)) :=
  ⟨rfl, rfl⟩

/-- C5 amended: a value token starting with at least three backticks is
classified as a string-block start carrying its leading backtick run
length; a backtick-wrapped numeric or word token with fewer than three
leading backticks (such as `123` in single backticks) instead fails
immediately in `parse_value` with the invalid-value error, so
`decode("a: `123`")` fails at line 1 with that error rather than later
for lack of a closing fence. -/
theorem c5_backtick_routing_amended :
    (∀ (rest : List Char) (ln : Option Nat),
        parse_value (btChar :: btChar :: btChar :: rest) ln
          = .ok (.strStart (btRun (btChar :: btChar :: btChar :: rest))))
    ∧ parse_value (toL ("`123`")) (some 1) = .error (.stcParse .invalidValue (some 1))
    ∧ loads none .python (toL ("a: `123`")) = .error (.stcParse .invalidValue (some 1)) :=
  ⟨parse_value_bt3, rfl, rfl⟩

/-- C6: whenever one key path strictly extends another and both are
assigned in one document, the tree builder fails with one of the two
conflicting-container-and-leaf `STCParseError`s, in either order: once
`fill_in_value` has placed a leaf at path `p`, filling `p ++ r` fails
with the mid-path conflict error, and once `p ++ r` is filled, filling
`p` fails with the final-segment conflict error; in particular decode
of `a.b: 1\na.b.c: 2` and of `a.b.c: 2\na.b: 1` fails with the
respective conflict error. -/
theorem c6_path_extension_conflict :
    (∀ (p r : List (List Char)) (v w : Val) (d d' : PDict), p ≠ [] → r ≠ [] →
        fill_in_value p v d = .ok d' →
        fill_in_value (p ++ r) w d' = .error (.stcParse .conflictMid none))
    ∧ (∀ (p r : List (List Char)) (v w : Val) (d d' : PDict), p ≠ [] → r ≠ [] →
        fill_in_value (p ++ r) v d = .ok d' →
        fill_in_value p w d' = .error (.stcParse .conflictLast none))
    ∧ loads none .python (toL ("a.b: 1\na.b.c: 2"))
        = .error (.stcParse .conflictMid none)
    ∧ loads none .python (toL ("a.b.c: 2\na.b: 1"))
        = .error (.stcParse .conflictLast none) :=
  ⟨fun p r v w d d' hp hr h => fillGo_extend_conflict p r none none v w d d' hp hr h,
   fun p r v w d d' hp hr h => fillGo_shorten_conflict p r none none v w d d' hp hr h,
   rfl, rfl⟩

/-- C6 witness: filling `a.b` with 1 into the empty tree succeeds, and
then filling `a.b.c` (its strict extension) fails with the mid-path
conflict error, by the first general part of the claim theorem. -/
theorem c6_path_extension_conflict_witness :
    fill_in_value [toL ("a"), toL ("b"), toL ("c")] (.vInt 2)
        [(toL ("a"), .dict [(toL ("b"), .leaf (.vInt 1))])]
      = .error (.stcParse .conflictMid none) :=
  c6_path_extension_conflict.1 [toL ("a"), toL ("b")] [toL ("c")] (.vInt 1) (.vInt 2)
    [] [(toL ("a"), .dict [(toL ("b"), .leaf (.vInt 1))])] (by simp) (by simp) rfl

/-- C7: a string block whose opening fence line is immediately followed
by the closing fence line is rejected with the malformed-empty-block
error at line 2, while a block containing exactly one blank content
line decodes to the empty string. -/
theorem c7_empty_string_block_rules :
    loads none .python (toL ("a: ```\n```"))
        = .error (.stcParse .emptyStringBlock (some 2))
    ∧ loads none .python (toL ("a: ```\n\n```"))
        = .ok (.jDict [(toL ("a"), .jStr [])]) :=
  ⟨rfl, rfl⟩

/-- C8: when the alternate engine binding is absent (`rust_loads is
None`) and the `'rust'` mode is requested — the declared default — the
decoder raises `NotImplementedError`, a constructor distinct from the
`STCParseError` family, and never falls back to the core algorithm,
whatever the input. -/
theorem c8_engine_unavailable :
    (∀ s, loads none .rust s = .error .notImplementedError)
    ∧ (∀ s, loadsDefault none s = .error .notImplementedError) :=
  ⟨fun _ => rfl, fun _ => rfl⟩

/-- C9: only the length of the leading backtick run of a string-block
opener is used — characters after the run on the opening line are
silently discarded — so `a: ```extra` opens the same block as
`a: ```` and both documents decode to `{"a": "x"}`; `parse_value`
returns fence length 3 for the token made of three backticks followed
by `extra`. -/
theorem c9_opening_fence_suffix_discarded :
    loads none .python (toL ("a: ```extra\nx\n```"))
        = loads none .python (toL ("a: ```\nx\n```"))
    ∧ loads none .python (toL ("a: ```extra\nx\n```"))
        = .ok (.jDict [(toL ("a"), .jStr (toL ("x")))])
    ∧ parse_value (toL ("```extra")) (some 1) = .ok (.strStart 3) :=
  ⟨rfl, rfl, rfl⟩

/-- C10: numeric values accept exactly what Python's `int()` then
`float()` constructors accept, which is wider than plain
decimal/scientific literal syntax: `1_000` (PEP-515 underscores)
decodes to the integer 1000 and `inf` decodes to the positive-infinity
float. -/
theorem c10_python_numeric_constructors :
    loads none .python (toL ("a: 1_000")) = .ok (.jDict [(toL ("a"), .jInt 1000)])
    ∧ loads none .python (toL ("a: inf")) = .ok (.jDict [(toL ("a"), .jFloat .posInf)])
    ∧ pyParseInt (toL ("1_000")) = some 1000
    ∧ pyParseFloat (toL ("inf")) = some .posInf :=
  ⟨rfl, rfl, rfl, rfl⟩
